import Mathlib

/-!
Verification of the peer catalog synchronization core of
`RoamingLibrary_wNodeLinking_v2.ino` (ESP8266 firmware).

The embedding models the node-linking core: the receive merger
(`onDataReceived`), the peer registry (`peers`, a `std::list<PeerInfo>`),
the catalog store (`remoteFiles`, a `std::list<SharedFile>`), the
dissemination scheduler (`broadcastFiles` with its `failedTransmissions`
retry queue and `sendStatuses` map), the send-outcome callback registered
in `initializeESPNow`, and the periodic sweep in `updateNodeLinking`.

Machine integers: `millis()` timestamps are `unsigned long` (32 bit on
ESP8266); all timestamp subtractions in the source are unsigned, so they
are modelled by `sub32` (subtraction modulo 2^32).
-/

/-- Bound on peers, `const int MAX_PEERS = 20;` (declared in the source;
never referenced by any other line of the source). -/
def MAX_PEERS : Nat := 20

/-- `const unsigned long BROADCAST_INTERVAL = 2000;` -/
def BROADCAST_INTERVAL : Nat := 2000

/-- `const unsigned long PEER_TIMEOUT = 10000;` -/
def PEER_TIMEOUT : Nat := 10000

/-- `const int MAX_RETRY = 3;` -/
def MAX_RETRY : Nat := 3

/-- The literal `100` in `broadcastFiles`: "Wait 100ms between retries". -/
def RETRY_SPACING : Nat := 100

/-- 2^32, the modulus of `unsigned long` arithmetic on the ESP8266. -/
def W32 : Nat := 4294967296

/-- Unsigned 32-bit subtraction `a - b`, as computed by the source's
`millis() - lastSeen` style expressions on `unsigned long` values. -/
def sub32 (a b : Nat) : Nat := (a % W32 + (W32 - b % W32)) % W32

/-- A 6-byte link-layer (MAC) address, `uint8_t[6]`.  Each field holds one
byte.  Equality of two addresses is `memcmp(_, _, 6) == 0`. -/
structure Mac where
  b0 : Nat
  b1 : Nat
  b2 : Nat
  b3 : Nat
  b4 : Nat
  b5 : Nat
deriving DecidableEq, Repr

/-- The wire record, `struct SharedFile { char filename[32]; size_t
filesize; uint8_t sourceNode[6]; char nodeSSID[32]; }`. -/
structure SharedFile where
  filename : String
  filesize : Nat
  sourceNode : Mac
  nodeSSID : String
deriving DecidableEq, Repr

/-- `sizeof(SharedFile)` on the ESP8266: 32 + 4 + 6 + 32 = 74 bytes of
members, padded to 76 for the 4-byte alignment of `size_t`.  Only its
equality or inequality with a datagram's length matters below. -/
def RECORD_SIZE : Nat := 76

/-- An inbound ESP-NOW datagram: its length and the `SharedFile` its bytes
would decode to via `memcpy`.  When `len ≠ RECORD_SIZE` the source never
reads the payload, so `content` is junk that is never consulted. -/
structure Datagram where
  len : Nat
  content : SharedFile
deriving DecidableEq, Repr

/-- `struct PeerInfo { uint8_t mac[6]; unsigned long lastSeen; String ssid; }`. -/
structure PeerInfo where
  mac : Mac
  lastSeen : Nat
  ssid : String
deriving DecidableEq, Repr

/-- `struct SendStatus { bool success; int retryCount; unsigned long lastTry; }`. -/
structure SendStatus where
  success : Bool
  retryCount : Nat
  lastTry : Nat
deriving DecidableEq, Repr

/-- The zero-initialized `SendStatus` that `std::map::operator[]`
value-initializes for an absent key. -/
def SendStatus.default : SendStatus := ⟨false, 0, 0⟩

/-- The peer-update loop of `onDataReceived` (lines 192-211): scan `peers`
for the first entry whose `mac` equals the sender's, update its `lastSeen`
and `ssid` in place and stop; if no entry matches, `push_back` a new
`PeerInfo` at the end. -/
def upsertPeer (mac : Mac) (ssid : String) (now : Nat) : List PeerInfo → List PeerInfo
  | [] => [⟨mac, now, ssid⟩]
  | p :: ps =>
    if p.mac = mac then ⟨p.mac, now, ssid⟩ :: ps
    else p :: upsertPeer mac ssid now ps

/-- The file-update loop of `onDataReceived` (lines 213-228): scan
`remoteFiles` for the first entry with equal `filename` (strcmp) and equal
`sourceNode` (memcmp), overwrite it with the received record and stop; if
no entry matches, `push_back` the received record at the end. -/
def upsertFile (rec : SharedFile) : List SharedFile → List SharedFile
  | [] => [rec]
  | f :: fs =>
    if f.filename = rec.filename ∧ f.sourceNode = rec.sourceNode then rec :: fs
    else f :: upsertFile rec fs

/-- The state mutated by the receive merger: the peer registry `peers` and
the catalog store `remoteFiles`. -/
structure NodeState where
  peers : List PeerInfo
  remoteFiles : List SharedFile
deriving DecidableEq, Repr

/-- `onDataReceived(mac, data, len)` (lines 173-232): if `len ==
sizeof(SharedFile)`, decode the record and run the two upsert loops,
keying the registry by the sender's `mac` argument and the catalog by the
payload's `(filename, sourceNode)`; otherwise only log, changing nothing.
`now` is the value `millis()` returns during the call. -/
def onDataReceived (mac : Mac) (d : Datagram) (now : Nat) (st : NodeState) : NodeState :=
  if d.len = RECORD_SIZE then
    { peers := upsertPeer mac d.content.nodeSSID now st.peers
      remoteFiles := upsertFile d.content st.remoteFiles }
  else st

/-- The `peers.remove_if` sweep in `updateNodeLinking` (lines 432-440):
drop every peer with `(currentTime - peer.lastSeen) > PEER_TIMEOUT`
(unsigned arithmetic). -/
def evictStale (now : Nat) (ps : List PeerInfo) : List PeerInfo :=
  ps.filter fun p => sub32 now p.lastSeen ≤ PEER_TIMEOUT

/-- `"%02X"` upper-case hex digit. -/
def hexDigit (n : Nat) : Char :=
  if n < 10 then Char.ofNat (48 + n) else Char.ofNat (55 + n)

/-- One byte as two upper-case hex digits. -/
def byteHex (b : Nat) : String :=
  String.mk [hexDigit (b % 256 / 16), hexDigit (b % 16)]

/-- `getMacString` (lines 420-425): `snprintf("%02X:%02X:%02X:%02X:%02X:%02X", ...)`. -/
def getMacString (m : Mac) : String :=
  byteHex m.b0 ++ ":" ++ byteHex m.b1 ++ ":" ++ byteHex m.b2 ++ ":" ++
  byteHex m.b3 ++ ":" ++ byteHex m.b4 ++ ":" ++ byteHex m.b5

/-- The broadcast address `{0xFF, 0xFF, 0xFF, 0xFF, 0xFF, 0xFF}`, the
destination of every `esp_now_send` call in the source. -/
def broadcastMac : Mac := ⟨255, 255, 255, 255, 255, 255⟩

/-- ASCII `tolower`, applied per character by the Arduino
`String::toLowerCase`. -/
def asciiLower (c : Char) : Char :=
  if 65 ≤ c.toNat ∧ c.toNat ≤ 90 then Char.ofNat (c.toNat + 32) else c

/-- Arduino `String::toLowerCase` (by-character ASCII lowering). -/
def strToLower (s : String) : String :=
  String.mk (s.data.map asciiLower)

/-- Arduino `String::endsWith`. -/
def strEndsWith (s suffix : String) : Bool :=
  List.isPrefixOf suffix.data.reverse s.data.reverse

/-- `isAllowedFile` (lines 129-137). -/
def isAllowedFile (filename : String) : Bool :=
  let l := strToLower filename
  strEndsWith l ".pdf" || strEndsWith l ".epub" || strEndsWith l ".doc" ||
  strEndsWith l ".rtf" || strEndsWith l ".txt"

/-- `strncpy(dst, src, sizeof(dst) - 1)` into a 32-byte buffer: keep at
most 31 characters. -/
def strncpy31 (s : String) : String := s.take 31

/-- The `std::map<String, SendStatus> sendStatuses`, as an association
list with at most one binding per key (maintained by the operations). -/
abbrev SendStatusMap : Type := List (String × SendStatus)

/-- `map.find(k)`: the value bound to `k`, if any. -/
def mapFind (m : SendStatusMap) (k : String) : Option SendStatus :=
  match m with
  | [] => none
  | kv :: rest => if kv.1 = k then some kv.2 else mapFind rest k

/-- The value `map[k]` reads: the stored binding, or the value-initialized
`SendStatus` for an absent key. -/
def mapGetD (m : SendStatusMap) (k : String) : SendStatus :=
  (mapFind m k).getD SendStatus.default

/-- `map[k] = v`: bind `k` to `v`, replacing an existing binding. -/
def mapSet (m : SendStatusMap) (k : String) (v : SendStatus) : SendStatusMap :=
  match m with
  | [] => [(k, v)]
  | kv :: rest => if kv.1 = k then (k, v) :: rest else kv :: mapSet rest k v

/-- The insertion `std::map::operator[]` performs on a read of an absent
key: bind `k` to the value-initialized `SendStatus`. -/
def mapEnsure (m : SendStatusMap) (k : String) : SendStatusMap :=
  match mapFind m k with
  | some _ => m
  | none => mapSet m k SendStatus.default

/-- The outputs of one scheduler phase: the retry queue afterwards
(`failedTransmissions`), the `sendStatuses` map afterwards, the running
count of `esp_now_send` calls (indexing the acceptance oracle `acc`), the
payloads for which an `esp_now_send` call was made (in order), and the
`sendStatuses` keys read or written (in order). -/
structure PhaseOut where
  tickets : List SharedFile
  statuses : SendStatusMap
  counter : Nat
  attempts : List SharedFile
  keys : List String

/-- The retry loop of `broadcastFiles` (lines 370-388).  For each queued
record: read `sendStatuses[getMacString(sourceNode)]` (`operator[]`
inserts a zero-initialized entry when absent); if `retryCount <
MAX_RETRY` and the unsigned gap `millis() - lastTry` is at least 100,
call `esp_now_send`; when the oracle `acc` accepts the call (returns 0),
set the entry's `lastTry` to now and erase the ticket, otherwise keep it
unchanged; a ticket whose entry has `retryCount >= MAX_RETRY` is erased
without a send. -/
def retryPhase (now : Nat) (acc : Nat → Bool) :
    List SharedFile → SendStatusMap → Nat → PhaseOut
  | [], m, i => ⟨[], m, i, [], []⟩
  | t :: ts, m, i =>
    let k := getMacString t.sourceNode
    let m1 := mapEnsure m k
    let v := mapGetD m1 k
    if v.retryCount < MAX_RETRY then
      if RETRY_SPACING ≤ sub32 now v.lastTry then
        if acc i then
          let r := retryPhase now acc ts (mapSet m1 k { v with lastTry := now }) (i + 1)
          ⟨r.tickets, r.statuses, r.counter, t :: r.attempts, k :: r.keys⟩
        else
          let r := retryPhase now acc ts m1 (i + 1)
          ⟨t :: r.tickets, r.statuses, r.counter, t :: r.attempts, k :: r.keys⟩
      else
        let r := retryPhase now acc ts m1 i
        ⟨t :: r.tickets, r.statuses, r.counter, r.attempts, k :: r.keys⟩
    else
      let r := retryPhase now acc ts m1 i
      ⟨r.tickets, r.statuses, r.counter, r.attempts, k :: r.keys⟩

/-- The record `broadcastFiles` builds for a local file (lines 400-404):
truncated filename, size, this node's own address, truncated AP SSID. -/
def mkShared (ownMac : Mac) (ssid : String) (fn : String) (sz : Nat) : SharedFile :=
  ⟨strncpy31 fn, sz, ownMac, strncpy31 ssid⟩

/-- The fresh-broadcast loop of `broadcastFiles` (lines 391-415): for each
local file passing `isAllowedFile`, build a record and `esp_now_send` it;
when the call is rejected, `push_back` the record onto
`failedTransmissions` and set `sendStatuses[getMacString(sourceNode)] =
{false, 0, millis()}`.  A failed `SD.open` of the root directory skips
this loop entirely, which on this state is the same as an empty `files`
list. -/
def freshPhase (ownMac : Mac) (ssid : String) (now : Nat) (acc : Nat → Bool) :
    List (String × Nat) → List SharedFile → SendStatusMap → Nat → PhaseOut
  | [], q, m, i => ⟨q, m, i, [], []⟩
  | (fn, sz) :: files, q, m, i =>
    if isAllowedFile fn then
      let sf := mkShared ownMac ssid fn sz
      if acc i then
        let r := freshPhase ownMac ssid now acc files q m (i + 1)
        ⟨r.tickets, r.statuses, r.counter, sf :: r.attempts, r.keys⟩
      else
        let r := freshPhase ownMac ssid now acc files (q ++ [sf])
          (mapSet m (getMacString ownMac) ⟨false, 0, now⟩) (i + 1)
        ⟨r.tickets, r.statuses, r.counter, sf :: r.attempts, getMacString ownMac :: r.keys⟩
    else
      freshPhase ownMac ssid now acc files q m i

/-- The combined outputs of one `broadcastFiles` call: the retry phase's
send attempts and the fresh phase's send attempts are reported separately;
every retry attempt happens before every fresh attempt. -/
structure TickOut where
  tickets : List SharedFile
  statuses : SendStatusMap
  retryAttempts : List SharedFile
  freshAttempts : List SharedFile
  keys : List String

/-- `broadcastFiles` (lines 367-416): first drain the retry queue, then
broadcast the current local file list.  `acc i` tells whether the `i`-th
`esp_now_send` call of this tick returns 0 (accepted). -/
def broadcastFiles (ownMac : Mac) (ssid : String) (now : Nat) (acc : Nat → Bool)
    (files : List (String × Nat)) (q : List SharedFile) (m : SendStatusMap) : TickOut :=
  let r := retryPhase now acc q m 0
  let f := freshPhase ownMac ssid now acc files r.tickets r.statuses r.counter
  ⟨f.tickets, f.statuses, r.attempts, f.attempts, r.keys ++ f.keys⟩

/-- The send callback registered in `initializeESPNow` (lines 257-272):
on a failed outcome (`sendStatus != 0`) for destination `macAddr`, if
`sendStatuses` already holds `getMacString(macAddr)`, set that entry's
`success` to false and increment its `retryCount`; otherwise do nothing. -/
def onSendOutcome (macAddr : Mac) (status : Nat) (m : SendStatusMap) : SendStatusMap :=
  if status ≠ 0 then
    match mapFind m (getMacString macAddr) with
    | some v => mapSet m (getMacString macAddr) { v with success := false, retryCount := v.retryCount + 1 }
    | none => m
  else m

/-- The node-linking state: the two registries of `NodeState`, the
scheduler's `failedTransmissions` and `sendStatuses`, and the static
`lastBroadcast` of `updateNodeLinking` (zero-initialized). -/
structure SysState where
  peers : List PeerInfo
  remoteFiles : List SharedFile
  failedTransmissions : List SharedFile
  sendStatuses : SendStatusMap
  lastBroadcast : Nat

/-- What `updateNodeLinking` did this call, for the theorems: the send
attempts of the retry and fresh phases and the `sendStatuses` keys
touched (all empty when the broadcast interval had not elapsed). -/
structure TickLog where
  retryAttempts : List SharedFile
  freshAttempts : List SharedFile
  keys : List String

/-- `updateNodeLinking` (lines 428-456): evict stale peers, then, when
`currentTime - lastBroadcast >= BROADCAST_INTERVAL` (unsigned), run
`broadcastFiles` and record the broadcast time. -/
def updateNodeLinking (ownMac : Mac) (ssid : String) (now : Nat) (acc : Nat → Bool)
    (files : List (String × Nat)) (st : SysState) : SysState × TickLog :=
  let ps := evictStale now st.peers
  if BROADCAST_INTERVAL ≤ sub32 now st.lastBroadcast then
    let o := broadcastFiles ownMac ssid now acc files st.failedTransmissions st.sendStatuses
    (⟨ps, st.remoteFiles, o.tickets, o.statuses, now⟩,
     ⟨o.retryAttempts, o.freshAttempts, o.keys⟩)
  else
    (⟨ps, st.remoteFiles, st.failedTransmissions, st.sendStatuses, st.lastBroadcast⟩, ⟨[], [], []⟩)

/-- The events that touch node-linking state.  A `sendOutcome` event is
the ESP-NOW send callback; its destination address is always
`broadcastMac` because every `esp_now_send` call in the source targets
the broadcast address (lines 376-377 and 406-407). -/
inductive Event where
  | recv (mac : Mac) (d : Datagram) (now : Nat)
  | tick (now : Nat) (acc : Nat → Bool) (files : List (String × Nat))
  | sendOutcome (status : Nat)

/-- One step of the node: dispatch an event to the receive merger, the
periodic `updateNodeLinking`, or the send callback. -/
def step (ownMac : Mac) (ssid : String) (st : SysState) : Event → SysState
  | .recv mac d now =>
    let ns := onDataReceived mac d now ⟨st.peers, st.remoteFiles⟩
    ⟨ns.peers, ns.remoteFiles, st.failedTransmissions, st.sendStatuses, st.lastBroadcast⟩
  | .tick now acc files => (updateNodeLinking ownMac ssid now acc files st).1
  | .sendOutcome status =>
    ⟨st.peers, st.remoteFiles, st.failedTransmissions,
     onSendOutcome broadcastMac status st.sendStatuses, st.lastBroadcast⟩

/-- Process start: all registries empty, `lastBroadcast` zero. -/
def initState : SysState := ⟨[], [], [], [], 0⟩

/-- The node state after a sequence of events from process start. -/
def runTrace (ownMac : Mac) (ssid : String) (evs : List Event) : SysState :=
  evs.foldl (step ownMac ssid) initState

/-- The registry lookup: the first `PeerInfo` whose `mac` matches, the way
every scan of `peers` in the source matches (memcmp of 6 bytes). -/
def findPeer (mac : Mac) : List PeerInfo → Option PeerInfo
  | [] => none
  | p :: ps => if p.mac = mac then some p else findPeer mac ps

/-- The catalog lookup: the first `SharedFile` matching the identity key
`(filename, origin)`, the way every scan of `remoteFiles` matches. -/
def findFile (fn : String) (origin : Mac) : List SharedFile → Option SharedFile
  | [] => none
  | f :: fs => if f.filename = fn ∧ f.sourceNode = origin then some f else findFile fn origin fs

/-- Two records with the same identity key `(filename, origin)`. -/
abbrev sameKey (a b : SharedFile) : Prop :=
  a.filename = b.filename ∧ a.sourceNode = b.sourceNode

/-- No two catalog entries share an identity key. -/
abbrev KeysDistinct (fs : List SharedFile) : Prop :=
  fs.Pairwise fun a b => ¬ sameKey a b

theorem findPeer_upsertPeer (mac : Mac) (ssid : String) (now : Nat) (ps : List PeerInfo) :
    findPeer mac (upsertPeer mac ssid now ps) = some ⟨mac, now, ssid⟩ := by
  induction ps with
  | nil => simp [upsertPeer, findPeer]
  | cons p ps ih =>
    by_cases h : p.mac = mac
    · simp [upsertPeer, findPeer, h]
    · simp [upsertPeer, findPeer, h, ih]

theorem length_upsertPeer_of_not_mem (mac : Mac) (ssid : String) (now : Nat)
    (ps : List PeerInfo) (h : ∀ p ∈ ps, p.mac ≠ mac) :
    (upsertPeer mac ssid now ps).length = ps.length + 1 := by
  induction ps with
  | nil => simp [upsertPeer]
  | cons p ps ih =>
    have hp : p.mac ≠ mac := h p (List.mem_cons_self p ps)
    simp only [upsertPeer, if_neg hp, List.length_cons]
    rw [ih fun q hq => h q (List.mem_cons_of_mem p hq)]

theorem findFile_upsertFile (rec : SharedFile) (fs : List SharedFile) :
    findFile rec.filename rec.sourceNode (upsertFile rec fs) = some rec := by
  induction fs with
  | nil => simp [upsertFile, findFile]
  | cons f fs ih =>
    by_cases h : f.filename = rec.filename ∧ f.sourceNode = rec.sourceNode
    · simp [upsertFile, findFile, h]
    · simp [upsertFile, findFile, h, ih]

theorem length_upsertFile_of_not_mem (rec : SharedFile) (fs : List SharedFile)
    (h : ∀ f ∈ fs, ¬ sameKey f rec) :
    (upsertFile rec fs).length = fs.length + 1 := by
  induction fs with
  | nil => simp [upsertFile]
  | cons f fs ih =>
    have hf : ¬ (f.filename = rec.filename ∧ f.sourceNode = rec.sourceNode) :=
      h f (List.mem_cons_self f fs)
    simp only [upsertFile, if_neg hf, List.length_cons]
    rw [ih fun g hg => h g (List.mem_cons_of_mem f hg)]

theorem length_upsertFile_of_mem (rec : SharedFile) (fs : List SharedFile)
    (h : ∃ f ∈ fs, sameKey f rec) :
    (upsertFile rec fs).length = fs.length := by
  induction fs with
  | nil => simp at h
  | cons f fs ih =>
    by_cases hf : f.filename = rec.filename ∧ f.sourceNode = rec.sourceNode
    · simp [upsertFile, hf]
    · simp only [upsertFile, if_neg hf, List.length_cons]
      obtain ⟨g, hg, hkey⟩ := h
      rcases List.mem_cons.mp hg with rfl | hg'
      · exact absurd hkey hf
      · rw [ih ⟨g, hg', hkey⟩]

theorem upsertFile_idem (rec : SharedFile) (fs : List SharedFile) :
    upsertFile rec (upsertFile rec fs) = upsertFile rec fs := by
  induction fs with
  | nil => simp [upsertFile]
  | cons f fs ih =>
    by_cases h : f.filename = rec.filename ∧ f.sourceNode = rec.sourceNode
    · simp [upsertFile, h]
    · simp only [upsertFile, if_neg h, ih]

theorem mem_upsertFile {g rec : SharedFile} {fs : List SharedFile}
    (h : g ∈ upsertFile rec fs) : g = rec ∨ g ∈ fs := by
  induction fs with
  | nil => simpa [upsertFile] using h
  | cons f fs ih =>
    by_cases hf : f.filename = rec.filename ∧ f.sourceNode = rec.sourceNode
    · simp only [upsertFile, if_pos hf, List.mem_cons] at h
      rcases h with rfl | h
      · exact Or.inl rfl
      · exact Or.inr (List.mem_cons_of_mem f h)
    · simp only [upsertFile, if_neg hf, List.mem_cons] at h
      rcases h with rfl | h
      · exact Or.inr (List.mem_cons_self g fs)
      · rcases ih h with h' | h'
        · exact Or.inl h'
        · exact Or.inr (List.mem_cons_of_mem f h')

theorem keysDistinct_upsertFile {fs : List SharedFile} (rec : SharedFile)
    (h : KeysDistinct fs) : KeysDistinct (upsertFile rec fs) := by
  induction fs with
  | nil => simp [upsertFile]
  | cons f fs ih =>
    obtain ⟨hf, hfs⟩ := List.pairwise_cons.mp h
    by_cases hk : f.filename = rec.filename ∧ f.sourceNode = rec.sourceNode
    · simp only [upsertFile, if_pos hk]
      exact List.Pairwise.cons
        (fun b hb hkey => hf b hb ⟨hk.1.trans hkey.1, hk.2.trans hkey.2⟩) hfs
    · simp only [upsertFile, if_neg hk]
      refine List.Pairwise.cons (fun b hb => ?_) (ih hfs)
      rcases mem_upsertFile hb with rfl | hb'
      · exact hk
      · exact hf b hb'

theorem mapFind_mapSet_self (m : SendStatusMap) (k : String) (v : SendStatus) :
    mapFind (mapSet m k v) k = some v := by
  induction m with
  | nil => simp [mapSet, mapFind]
  | cons kv rest ih =>
    by_cases h : kv.1 = k
    · simp [mapSet, mapFind, h]
    · simp [mapSet, mapFind, h, ih]

theorem mapFind_mapSet_ne (m : SendStatusMap) {k k' : String} (v : SendStatus)
    (h : k' ≠ k) : mapFind (mapSet m k v) k' = mapFind m k' := by
  induction m with
  | nil => simp [mapSet, mapFind, fun x => h.symm x]
  | cons kv rest ih =>
    by_cases hk : kv.1 = k
    · subst hk
      simp [mapSet, mapFind, fun x => h x, fun x => h.symm x]
    · simp only [mapSet, if_neg hk, mapFind]
      by_cases hk' : kv.1 = k'
      · simp [hk']
      · simp [hk', ih]

theorem mapGetD_mapSet_self (m : SendStatusMap) (k : String) (v : SendStatus) :
    mapGetD (mapSet m k v) k = v := by
  simp [mapGetD, mapFind_mapSet_self]

theorem mapGetD_mapSet_ne (m : SendStatusMap) {k k' : String} (v : SendStatus)
    (h : k' ≠ k) : mapGetD (mapSet m k v) k' = mapGetD m k' := by
  simp [mapGetD, mapFind_mapSet_ne m v h]

/-- `operator[]`'s insertion of a value-initialized entry is invisible to
every later defaulted read. -/
theorem mapGetD_mapEnsure (m : SendStatusMap) (k k' : String) :
    mapGetD (mapEnsure m k) k' = mapGetD m k' := by
  unfold mapEnsure
  cases hf : mapFind m k with
  | some v => rfl
  | none =>
    by_cases h : k' = k
    · subst h
      simp [mapGetD, mapFind_mapSet_self, hf]
    · simp [mapGetD, mapFind_mapSet_ne m _ h]

theorem mem_mapSet {kv : String × SendStatus} {m : SendStatusMap} {k : String}
    {v : SendStatus} (h : kv ∈ mapSet m k v) : kv ∈ m ∨ kv = (k, v) := by
  induction m with
  | nil => simpa [mapSet] using h
  | cons kv' rest ih =>
    by_cases hk : kv'.1 = k
    · simp only [mapSet, if_pos hk, List.mem_cons] at h
      rcases h with rfl | h
      · exact Or.inr rfl
      · exact Or.inl (List.mem_cons_of_mem kv' h)
    · simp only [mapSet, if_neg hk, List.mem_cons] at h
      rcases h with rfl | h
      · exact Or.inl (List.mem_cons_self kv rest)
      · rcases ih h with h' | h'
        · exact Or.inl (List.mem_cons_of_mem kv' h')
        · exact Or.inr h'

theorem mem_mapEnsure {kv : String × SendStatus} {m : SendStatusMap} {k : String}
    (h : kv ∈ mapEnsure m k) : kv ∈ m ∨ kv = (k, SendStatus.default) := by
  unfold mapEnsure at h
  cases hf : mapFind m k with
  | some v =>
    rw [hf] at h
    exact Or.inl h
  | none =>
    rw [hf] at h
    exact mem_mapSet h

theorem mapFind_eq_none (m : SendStatusMap) (k : String)
    (h : ∀ kv ∈ m, kv.1 ≠ k) : mapFind m k = none := by
  induction m with
  | nil => rfl
  | cons kv rest ih =>
    simp only [mapFind, if_neg (h kv (List.mem_cons_self kv rest))]
    exact ih fun kv' hkv' => h kv' (List.mem_cons_of_mem kv hkv')

theorem mapFind_mem {m : SendStatusMap} {k : String} {v : SendStatus}
    (h : mapFind m k = some v) : (k, v) ∈ m := by
  induction m with
  | nil => simp [mapFind] at h
  | cons kv rest ih =>
    by_cases hk : kv.1 = k
    · simp only [mapFind, if_pos hk, Option.some.injEq] at h
      subst h
      rw [← hk]
      exact List.mem_cons_self kv rest
    · simp only [mapFind, if_neg hk] at h
      exact List.mem_cons_of_mem kv (ih h)

theorem mem_evictStale {p : PeerInfo} {now : Nat} {ps : List PeerInfo} :
    p ∈ evictStale now ps ↔ p ∈ ps ∧ sub32 now p.lastSeen ≤ PEER_TIMEOUT := by
  simp [evictStale, List.mem_filter]

theorem mem_retryPhase_tickets {t : SharedFile} {now : Nat} {acc : Nat → Bool}
    {ts : List SharedFile} {m : SendStatusMap} {i : Nat}
    (h : t ∈ (retryPhase now acc ts m i).tickets) : t ∈ ts := by
  induction ts generalizing m i with
  | nil => simp [retryPhase] at h
  | cons u ts ih =>
    simp only [retryPhase] at h
    split at h
    · split at h
      · split at h
        · exact List.mem_cons_of_mem u (ih h)
        · rcases List.mem_cons.mp h with rfl | h'
          · exact List.mem_cons_self t ts
          · exact List.mem_cons_of_mem u (ih h')
      · rcases List.mem_cons.mp h with rfl | h'
        · exact List.mem_cons_self t ts
        · exact List.mem_cons_of_mem u (ih h')
    · exact List.mem_cons_of_mem u (ih h)

/-- The retry loop never changes any entry's `retryCount`: it only inserts
zero-initialized entries (which read the same as an absent key) and
overwrites `lastTry` on an accepted resend. -/
theorem retryPhase_getD_retryCount (now : Nat) (acc : Nat → Bool) (ts : List SharedFile)
    (m : SendStatusMap) (i : Nat) (k : String) :
    (mapGetD (retryPhase now acc ts m i).statuses k).retryCount =
      (mapGetD m k).retryCount := by
  induction ts generalizing m i with
  | nil => rfl
  | cons u ts ih =>
    simp only [retryPhase]
    split
    · split
      · split
        · rw [ih]
          by_cases hk : k = getMacString u.sourceNode
          · subst hk
            rw [mapGetD_mapSet_self, mapGetD_mapEnsure]
          · rw [mapGetD_mapSet_ne _ _ hk, mapGetD_mapEnsure]
        · rw [ih, mapGetD_mapEnsure]
      · rw [ih, mapGetD_mapEnsure]
    · rw [ih, mapGetD_mapEnsure]

/-- A ticket whose send-status entry has `retryCount` at the bound is
erased by the retry loop and no resend is attempted for it. -/
theorem retryPhase_drops_bounded {t : SharedFile} (now : Nat) (acc : Nat → Bool)
    (ts : List SharedFile) (m : SendStatusMap) (i : Nat)
    (h : MAX_RETRY ≤ (mapGetD m (getMacString t.sourceNode)).retryCount) :
    t ∉ (retryPhase now acc ts m i).tickets ∧
      t ∉ (retryPhase now acc ts m i).attempts := by
  induction ts generalizing m i with
  | nil => simp [retryPhase]
  | cons u ts ih =>
    simp only [retryPhase]
    by_cases h1 : (mapGetD (mapEnsure m (getMacString u.sourceNode))
        (getMacString u.sourceNode)).retryCount < MAX_RETRY
    · have htu : t ≠ u := by
        rintro rfl
        rw [mapGetD_mapEnsure] at h1
        exact absurd h (not_le.mpr h1)
      rw [if_pos h1]
      by_cases h2 : RETRY_SPACING ≤ sub32 now
          (mapGetD (mapEnsure m (getMacString u.sourceNode)) (getMacString u.sourceNode)).lastTry
      · rw [if_pos h2]
        by_cases h3 : acc i = true
        · rw [if_pos h3]
          have hmm : MAX_RETRY ≤ (mapGetD
              (mapSet (mapEnsure m (getMacString u.sourceNode)) (getMacString u.sourceNode)
                { mapGetD (mapEnsure m (getMacString u.sourceNode)) (getMacString u.sourceNode)
                    with lastTry := now })
              (getMacString t.sourceNode)).retryCount := by
            by_cases hk : getMacString t.sourceNode = getMacString u.sourceNode
            · rw [hk, mapGetD_mapSet_self]
              rw [mapGetD_mapEnsure, ← hk]
              exact h
            · rw [mapGetD_mapSet_ne _ _ hk, mapGetD_mapEnsure]
              exact h
          obtain ⟨ha, hb⟩ := ih _ (i + 1) hmm
          refine ⟨ha, ?_⟩
          simp only [List.mem_cons, not_or]
          exact ⟨htu, hb⟩
        · rw [if_neg h3]
          have hmm : MAX_RETRY ≤ (mapGetD (mapEnsure m (getMacString u.sourceNode))
              (getMacString t.sourceNode)).retryCount := by
            rw [mapGetD_mapEnsure]
            exact h
          obtain ⟨ha, hb⟩ := ih _ (i + 1) hmm
          constructor
          · simp only [List.mem_cons, not_or]
            exact ⟨htu, ha⟩
          · simp only [List.mem_cons, not_or]
            exact ⟨htu, hb⟩
      · rw [if_neg h2]
        have hmm : MAX_RETRY ≤ (mapGetD (mapEnsure m (getMacString u.sourceNode))
            (getMacString t.sourceNode)).retryCount := by
          rw [mapGetD_mapEnsure]
          exact h
        obtain ⟨ha, hb⟩ := ih _ i hmm
        constructor
        · simp only [List.mem_cons, not_or]
          exact ⟨htu, ha⟩
        · exact hb
    · rw [if_neg h1]
      have hmm : MAX_RETRY ≤ (mapGetD (mapEnsure m (getMacString u.sourceNode))
          (getMacString t.sourceNode)).retryCount := by
        rw [mapGetD_mapEnsure]
        exact h
      exact ih _ i hmm

/-- Every key of the retry loop's touched-key log is the MAC string of
some queued ticket's embedded origin. -/
theorem retryPhase_keys (now : Nat) (acc : Nat → Bool) (K : String) :
    ∀ (ts : List SharedFile) (m : SendStatusMap) (i : Nat),
      (∀ t ∈ ts, getMacString t.sourceNode = K) →
      ∀ k ∈ (retryPhase now acc ts m i).keys, k = K := by
  intro ts
  induction ts with
  | nil =>
    intro m i _ k hk
    simp [retryPhase] at hk
  | cons u ts ih =>
    intro m i hts k hk
    have hu : getMacString u.sourceNode = K := hts u (List.mem_cons_self u ts)
    have hts' : ∀ t ∈ ts, getMacString t.sourceNode = K :=
      fun t ht => hts t (List.mem_cons_of_mem u ht)
    simp only [retryPhase] at hk
    split at hk
    · split at hk
      · split at hk
        · rcases List.mem_cons.mp hk with rfl | hk'
          · exact hu
          · exact ih _ _ hts' k hk'
        · rcases List.mem_cons.mp hk with rfl | hk'
          · exact hu
          · exact ih _ _ hts' k hk'
      · rcases List.mem_cons.mp hk with rfl | hk'
        · exact hu
        · exact ih _ _ hts' k hk'
    · rcases List.mem_cons.mp hk with rfl | hk'
      · exact hu
      · exact ih _ _ hts' k hk'

/-- All bindings of the map carry key `K` and a zero `retryCount`. -/
def MapInv (K : String) (m : SendStatusMap) : Prop :=
  ∀ kv ∈ m, kv.1 = K ∧ kv.2.retryCount = 0

theorem mapInv_getD_retryCount {K : String} {m : SendStatusMap} (hm : MapInv K m)
    (k : String) : (mapGetD m k).retryCount = 0 := by
  unfold mapGetD
  cases hf : mapFind m k with
  | none => rfl
  | some v => exact (hm (k, v) (mapFind_mem hf)).2

theorem mapInv_mapSet {K : String} {m : SendStatusMap} (hm : MapInv K m)
    {v : SendStatus} (hv : v.retryCount = 0) : MapInv K (mapSet m K v) := by
  intro kv hkv
  rcases mem_mapSet hkv with h | rfl
  · exact hm kv h
  · exact ⟨rfl, hv⟩

theorem mapInv_mapEnsure {K : String} {m : SendStatusMap} (hm : MapInv K m) :
    MapInv K (mapEnsure m K) := by
  intro kv hkv
  rcases mem_mapEnsure hkv with h | rfl
  · exact hm kv h
  · exact ⟨rfl, rfl⟩

theorem mapInv_retryPhase (now : Nat) (acc : Nat → Bool) (K : String) :
    ∀ (ts : List SharedFile) (m : SendStatusMap) (i : Nat),
      (∀ t ∈ ts, getMacString t.sourceNode = K) → MapInv K m →
      MapInv K (retryPhase now acc ts m i).statuses := by
  intro ts
  induction ts with
  | nil =>
    intro m i _ hm
    exact hm
  | cons u ts ih =>
    intro m i hts hm
    have hu : getMacString u.sourceNode = K := hts u (List.mem_cons_self u ts)
    have hts' : ∀ t ∈ ts, getMacString t.sourceNode = K :=
      fun t ht => hts t (List.mem_cons_of_mem u ht)
    have hm1 : MapInv K (mapEnsure m (getMacString u.sourceNode)) := by
      rw [hu]
      exact mapInv_mapEnsure hm
    simp only [retryPhase]
    split
    · split
      · split
        · refine ih _ (i + 1) hts' ?_
          rw [hu] at hm1 ⊢
          exact mapInv_mapSet hm1 (mapInv_getD_retryCount hm1 _)
        · exact ih _ (i + 1) hts' hm1
      · exact ih _ i hts' hm1
    · exact ih _ i hts' hm1

theorem mem_freshPhase_tickets {t : SharedFile} (ownMac : Mac) (ssid : String)
    (now : Nat) (acc : Nat → Bool) :
    ∀ (files : List (String × Nat)) (q : List SharedFile) (m : SendStatusMap) (i : Nat),
      t ∈ (freshPhase ownMac ssid now acc files q m i).tickets →
      t ∈ q ∨ t.sourceNode = ownMac := by
  intro files
  induction files with
  | nil =>
    intro q m i h
    exact Or.inl h
  | cons fsz files ih =>
    intro q m i h
    obtain ⟨fn, sz⟩ := fsz
    simp only [freshPhase] at h
    split at h
    · split at h
      · exact ih _ _ _ h
      · rcases ih _ _ _ h with h' | h'
        · rcases List.mem_append.mp h' with h'' | h''
          · exact Or.inl h''
          · simp only [List.mem_singleton] at h''
            subst h''
            exact Or.inr rfl
        · exact Or.inr h'
    · exact ih _ _ _ h

theorem freshPhase_keys (ownMac : Mac) (ssid : String) (now : Nat) (acc : Nat → Bool) :
    ∀ (files : List (String × Nat)) (q : List SharedFile) (m : SendStatusMap) (i : Nat),
      ∀ k ∈ (freshPhase ownMac ssid now acc files q m i).keys, k = getMacString ownMac := by
  intro files
  induction files with
  | nil =>
    intro q m i k hk
    simp [freshPhase] at hk
  | cons fsz files ih =>
    intro q m i k hk
    obtain ⟨fn, sz⟩ := fsz
    simp only [freshPhase] at hk
    split at hk
    · split at hk
      · exact ih _ _ _ k hk
      · rcases List.mem_cons.mp hk with rfl | hk'
        · rfl
        · exact ih _ _ _ k hk'
    · exact ih _ _ _ k hk

theorem mapInv_freshPhase (ownMac : Mac) (ssid : String) (now : Nat) (acc : Nat → Bool) :
    ∀ (files : List (String × Nat)) (q : List SharedFile) (m : SendStatusMap) (i : Nat),
      MapInv (getMacString ownMac) m →
      MapInv (getMacString ownMac) (freshPhase ownMac ssid now acc files q m i).statuses := by
  intro files
  induction files with
  | nil =>
    intro q m i hm
    exact hm
  | cons fsz files ih =>
    intro q m i hm
    obtain ⟨fn, sz⟩ := fsz
    simp only [freshPhase]
    split
    · split
      · exact ih _ _ _ hm
      · exact ih _ _ _ (mapInv_mapSet hm rfl)
    · exact ih _ _ _ hm

/-- Every queued failed transmission carries this node's own address as
its embedded origin. -/
def QueueInv (ownMac : Mac) (st : SysState) : Prop :=
  ∀ t ∈ st.failedTransmissions, t.sourceNode = ownMac

/-- `updateNodeLinking` always applies the eviction sweep to `peers`,
whether or not it broadcasts. -/
theorem updateNodeLinking_peers (ownMac : Mac) (ssid : String) (now : Nat)
    (acc : Nat → Bool) (files : List (String × Nat)) (st : SysState) :
    ((updateNodeLinking ownMac ssid now acc files st).1).peers = evictStale now st.peers := by
  unfold updateNodeLinking
  split
  · rfl
  · rfl

/-- `updateNodeLinking` never touches the catalog store. -/
theorem updateNodeLinking_remoteFiles (ownMac : Mac) (ssid : String) (now : Nat)
    (acc : Nat → Bool) (files : List (String × Nat)) (st : SysState) :
    ((updateNodeLinking ownMac ssid now acc files st).1).remoteFiles = st.remoteFiles := by
  unfold updateNodeLinking
  split
  · rfl
  · rfl

theorem queueInv_step (ownMac : Mac) (ssid : String) (st : SysState)
    (hq : QueueInv ownMac st) (e : Event) : QueueInv ownMac (step ownMac ssid st e) := by
  cases e with
  | recv mac d now => exact hq
  | sendOutcome status => exact hq
  | tick now acc files =>
    intro t ht
    simp only [step, updateNodeLinking] at ht
    split at ht
    · simp only [broadcastFiles] at ht
      rcases mem_freshPhase_tickets ownMac ssid now acc _ _ _ _ ht with h' | h'
      · exact hq t (mem_retryPhase_tickets h')
      · exact h'
    · exact hq t ht

theorem queueInv_runTrace (ownMac : Mac) (ssid : String) (evs : List Event) :
    QueueInv ownMac (runTrace ownMac ssid evs) := by
  have : ∀ (l : List Event) (st : SysState), QueueInv ownMac st →
      QueueInv ownMac (l.foldl (step ownMac ssid) st) := by
    intro l
    induction l with
    | nil => exact fun st h => h
    | cons e l ih => exact fun st h => ih _ (queueInv_step ownMac ssid st h e)
  exact this evs initState fun t ht => absurd ht (List.not_mem_nil t)

theorem statusInv_step (ownMac : Mac) (ssid : String) (st : SysState)
    (hmac : getMacString ownMac ≠ getMacString broadcastMac)
    (hq : QueueInv ownMac st) (hm : MapInv (getMacString ownMac) st.sendStatuses)
    (e : Event) : MapInv (getMacString ownMac) (step ownMac ssid st e).sendStatuses := by
  cases e with
  | recv mac d now => exact hm
  | sendOutcome status =>
    simp only [step, onSendOutcome]
    split
    · have hfind : mapFind st.sendStatuses (getMacString broadcastMac) = none :=
        mapFind_eq_none _ _ fun kv hkv h => hmac ((hm kv hkv).1 ▸ h)
      rw [hfind]
      exact hm
    · exact hm
  | tick now acc files =>
    simp only [step, updateNodeLinking]
    split
    · simp only [broadcastFiles]
      refine mapInv_freshPhase ownMac ssid now acc _ _ _ _ ?_
      refine mapInv_retryPhase now acc _ _ _ _ ?_ hm
      intro t ht
      rw [hq t ht]
    · exact hm

/-- The combined reachable-state invariant: every queued ticket's origin
is this node's address, and every `sendStatuses` binding is keyed by this
node's MAC string with `retryCount` zero (the send callback looks up the
broadcast destination's MAC string and therefore never matches). -/
theorem sysInv_runTrace (ownMac : Mac) (ssid : String)
    (hmac : getMacString ownMac ≠ getMacString broadcastMac) (evs : List Event) :
    QueueInv ownMac (runTrace ownMac ssid evs) ∧
      MapInv (getMacString ownMac) (runTrace ownMac ssid evs).sendStatuses := by
  have : ∀ (l : List Event) (st : SysState),
      QueueInv ownMac st → MapInv (getMacString ownMac) st.sendStatuses →
      QueueInv ownMac (l.foldl (step ownMac ssid) st) ∧
        MapInv (getMacString ownMac) (l.foldl (step ownMac ssid) st).sendStatuses := by
    intro l
    induction l with
    | nil => exact fun st hq hm => ⟨hq, hm⟩
    | cons e l ih =>
      intro st hq hm
      exact ih _ (queueInv_step ownMac ssid st hq e) (statusInv_step ownMac ssid st hmac hq hm e)
  refine this evs initState (fun t ht => absurd ht (List.not_mem_nil t)) ?_
  intro kv hkv
  exact absurd hkv (List.not_mem_nil kv)

/-- Invariance of a predicate along every event trace from process start. -/
theorem runTrace_invariant (P : SysState → Prop) (ownMac : Mac) (ssid : String)
    (hinit : P initState)
    (hstep : ∀ st e, P st → P (step ownMac ssid st e)) (evs : List Event) :
    P (runTrace ownMac ssid evs) := by
  have : ∀ (l : List Event) (st : SysState), P st → P (l.foldl (step ownMac ssid) st) := by
    intro l
    induction l with
    | nil => exact fun st h => h
    | cons e l ih => exact fun st h => ih _ (hstep st e h)
  exact this evs initState hinit

theorem keysDistinct_step (ownMac : Mac) (ssid : String) (st : SysState) (e : Event)
    (h : KeysDistinct st.remoteFiles) : KeysDistinct (step ownMac ssid st e).remoteFiles := by
  cases e with
  | recv mac d now =>
    simp only [step]
    by_cases hlen : d.len = RECORD_SIZE
    · simp only [onDataReceived, if_pos hlen]
      exact keysDistinct_upsertFile _ h
    · simp only [onDataReceived, if_neg hlen]
      exact h
  | tick now acc files =>
    simp only [step]
    rw [updateNodeLinking_remoteFiles]
    exact h
  | sendOutcome status => exact h

theorem keysDistinct_runTrace (ownMac : Mac) (ssid : String) (evs : List Event) :
    KeysDistinct (runTrace ownMac ssid evs).remoteFiles :=
  runTrace_invariant (fun st => KeysDistinct st.remoteFiles) ownMac ssid
    List.Pairwise.nil (keysDistinct_step ownMac ssid) evs

/-- The sender address of Scenario A, `AA:BB:CC:DD:EE:FF`. -/
def macA : Mac := ⟨170, 187, 204, 221, 238, 255⟩

/-- The record of Scenario A: filename `notes.txt`, size 1024, origin
`AA:BB:CC:DD:EE:FF`, label `NODE_07`. -/
def recA : SharedFile := ⟨"notes.txt", 1024, macA, "NODE_07"⟩

/-- Scenario A's record as a well-formed datagram. -/
def dgA : Datagram := ⟨RECORD_SIZE, recA⟩

/-- A second peer address. -/
def mac9 : Mac := ⟨9, 9, 9, 9, 9, 9⟩

/-- A sample own address for this node. -/
def ownMac1 : Mac := ⟨1, 2, 3, 4, 5, 6⟩

/-- A state with one stale peer (`macA`, last seen at 0), one fresh peer
(`mac9`, last seen at 15000) and one catalog entry originating at `macA`. -/
def stSweep : SysState := ⟨[⟨macA, 0, "A"⟩, ⟨mac9, 15000, "B"⟩], [recA], [], [], 0⟩

/-- Claim C1: on a well-formed inbound datagram (length equal to the fixed
record size) the receive merger upserts the peer registry keyed by the
sender's link-layer address, with `displayName` taken from the payload's
origin label and `lastSeen` set to the current time, and upserts the
catalog store keyed by the payload's `(filename, embedded origin)` pair,
storing the payload (hence its size); if the sender's address is absent
from the registry the registry grows by exactly one entry, and if the
payload's key is absent from the catalog the catalog grows by exactly one
entry. -/
theorem C1_receive_merger_upserts (mac : Mac) (d : Datagram) (now : Nat) (st : NodeState)
    (hlen : d.len = RECORD_SIZE) :
    findPeer mac (onDataReceived mac d now st).peers =
        some ⟨mac, now, d.content.nodeSSID⟩ ∧
    findFile d.content.filename d.content.sourceNode
        (onDataReceived mac d now st).remoteFiles = some d.content ∧
    ((∀ p ∈ st.peers, p.mac ≠ mac) →
      (onDataReceived mac d now st).peers.length = st.peers.length + 1) ∧
    ((∀ f ∈ st.remoteFiles, ¬ sameKey f d.content) →
      (onDataReceived mac d now st).remoteFiles.length = st.remoteFiles.length + 1) := by
  simp only [onDataReceived, if_pos hlen]
  exact ⟨findPeer_upsertPeer mac d.content.nodeSSID now st.peers,
    findFile_upsertFile d.content st.remoteFiles,
    fun h => length_upsertPeer_of_not_mem mac d.content.nodeSSID now st.peers h,
    fun h => length_upsertFile_of_not_mem d.content st.remoteFiles h⟩

set_option maxRecDepth 8000

/-- Witness for C1: Scenario A from an empty state. -/
theorem C1_witness :
    dgA.len = RECORD_SIZE ∧
    findPeer macA (onDataReceived macA dgA 5 ⟨[], []⟩).peers = some ⟨macA, 5, "NODE_07"⟩ ∧
    findFile "notes.txt" macA (onDataReceived macA dgA 5 ⟨[], []⟩).remoteFiles = some recA ∧
    (onDataReceived macA dgA 5 ⟨[], []⟩).peers.length = 1 ∧
    (onDataReceived macA dgA 5 ⟨[], []⟩).remoteFiles.length = 1 := by
  have h := C1_receive_merger_upserts macA dgA 5 ⟨[], []⟩ rfl
  exact ⟨rfl, h.1, h.2.1, h.2.2.1 (by decide), h.2.2.2 (by decide)⟩

/-- Claim C2: along every event trace from the empty store the catalog
never holds two entries with an equal `(filename, origin)` key, and a
record whose key is already present replaces the matching entry in place
(same entry count, and the key now maps to the new record). -/
theorem C2_catalog_key_uniqueness (ownMac : Mac) (ssid : String) (evs : List Event)
    (rec : SharedFile) (fs : List SharedFile) (hmem : ∃ f ∈ fs, sameKey f rec) :
    KeysDistinct (runTrace ownMac ssid evs).remoteFiles ∧
    (upsertFile rec fs).length = fs.length ∧
    findFile rec.filename rec.sourceNode (upsertFile rec fs) = some rec :=
  ⟨keysDistinct_runTrace ownMac ssid evs,
   length_upsertFile_of_mem rec fs hmem,
   findFile_upsertFile rec fs⟩

/-- Witness for C2: a two-event trace (Scenario A then Scenario B's
size-2048 update) and an in-place replacement into a singleton store. -/
theorem C2_witness :
    (∃ f ∈ [recA], sameKey f (⟨"notes.txt", 2048, macA, "NODE_07"⟩ : SharedFile)) ∧
    KeysDistinct (runTrace ownMac1 "S"
      [Event.recv macA dgA 5,
       Event.recv macA ⟨RECORD_SIZE, ⟨"notes.txt", 2048, macA, "NODE_07"⟩⟩ 6]).remoteFiles ∧
    (upsertFile ⟨"notes.txt", 2048, macA, "NODE_07"⟩ [recA]).length = 1 ∧
    findFile "notes.txt" macA (upsertFile ⟨"notes.txt", 2048, macA, "NODE_07"⟩ [recA]) =
      some ⟨"notes.txt", 2048, macA, "NODE_07"⟩ := by
  have h := C2_catalog_key_uniqueness ownMac1 "S"
    [Event.recv macA dgA 5,
     Event.recv macA ⟨RECORD_SIZE, ⟨"notes.txt", 2048, macA, "NODE_07"⟩⟩ 6]
    ⟨"notes.txt", 2048, macA, "NODE_07"⟩ [recA] (by decide)
  exact ⟨by decide, h.1, h.2.1, h.2.2⟩

/-- Claim C3: a datagram whose length differs from the fixed record size
leaves the receive merger's whole state (peer registry and catalog store)
unchanged. -/
theorem C3_malformed_dropped (mac : Mac) (d : Datagram) (now : Nat) (st : NodeState)
    (h : d.len ≠ RECORD_SIZE) : onDataReceived mac d now st = st := by
  simp only [onDataReceived, if_neg h]

/-- Witness for C3: a 5-byte datagram against a non-empty state. -/
theorem C3_witness :
    (5 : Nat) ≠ RECORD_SIZE ∧
    onDataReceived mac9 ⟨5, recA⟩ 7 ⟨[⟨macA, 0, "A"⟩], [recA]⟩ =
      ⟨[⟨macA, 0, "A"⟩], [recA]⟩ :=
  ⟨by decide, C3_malformed_dropped mac9 ⟨5, recA⟩ 7 ⟨[⟨macA, 0, "A"⟩], [recA]⟩ (by decide)⟩

/-- Claim C4: whenever `updateNodeLinking` runs its sweep, a registered
peer with `now - lastSeen > PEER_TIMEOUT` (unsigned arithmetic) is absent
from the registry afterwards (it was present before, which is the
hypothesis), and one with `now - lastSeen <= PEER_TIMEOUT` is retained. -/
theorem C4_liveness_eviction (ownMac : Mac) (ssid : String) (now : Nat)
    (acc : Nat → Bool) (files : List (String × Nat)) (st : SysState) (p : PeerInfo)
    (hp : p ∈ st.peers) :
    (PEER_TIMEOUT < sub32 now p.lastSeen →
      p ∉ ((updateNodeLinking ownMac ssid now acc files st).1).peers) ∧
    (sub32 now p.lastSeen ≤ PEER_TIMEOUT →
      p ∈ ((updateNodeLinking ownMac ssid now acc files st).1).peers) := by
  rw [updateNodeLinking_peers]
  constructor
  · intro hev hmem
    exact absurd (mem_evictStale.mp hmem).2 (not_le.mpr hev)
  · intro hle
    exact mem_evictStale.mpr ⟨hp, hle⟩

/-- Witness for C4: at time 20000, the peer last seen at 0 is evicted and
the peer last seen at 15000 is retained. -/
theorem C4_witness :
    (⟨macA, 0, "A"⟩ : PeerInfo) ∈ stSweep.peers ∧
    PEER_TIMEOUT < sub32 20000 0 ∧
    (⟨macA, 0, "A"⟩ : PeerInfo) ∉
      ((updateNodeLinking ownMac1 "S" 20000 (fun _ => true) [] stSweep).1).peers ∧
    (⟨mac9, 15000, "B"⟩ : PeerInfo) ∈
      ((updateNodeLinking ownMac1 "S" 20000 (fun _ => true) [] stSweep).1).peers := by
  refine ⟨by decide, by decide, ?_, ?_⟩
  · exact (C4_liveness_eviction ownMac1 "S" 20000 (fun _ => true) [] stSweep
      ⟨macA, 0, "A"⟩ (by decide)).1 (by decide)
  · exact (C4_liveness_eviction ownMac1 "S" 20000 (fun _ => true) [] stSweep
      ⟨mac9, 15000, "B"⟩ (by decide)).2 (by decide)

/-- Claim C7: merging the same well-formed record twice in a row leaves
the catalog store exactly as after merging it once, whatever the clock
reads on the second delivery. -/
theorem C7_receive_idempotent (mac : Mac) (d : Datagram) (now1 now2 : Nat)
    (st : NodeState) (h : d.len = RECORD_SIZE) :
    (onDataReceived mac d now2 (onDataReceived mac d now1 st)).remoteFiles =
      (onDataReceived mac d now1 st).remoteFiles := by
  simp only [onDataReceived, if_pos h]
  exact upsertFile_idem d.content st.remoteFiles

/-- Witness for C7: Scenario A's record delivered twice. -/
theorem C7_witness :
    dgA.len = RECORD_SIZE ∧
    (onDataReceived macA dgA 9 (onDataReceived macA dgA 5 ⟨[], []⟩)).remoteFiles =
      (onDataReceived macA dgA 5 ⟨[], []⟩).remoteFiles :=
  ⟨rfl, C7_receive_idempotent macA dgA 5 9 ⟨[], []⟩ rfl⟩

/-- Claim C9: the liveness sweep only mutates the peer registry: when a
peer is evicted for staleness, every catalog entry (in particular one
whose origin is that peer's address) survives the `updateNodeLinking`
call unchanged. -/
theorem C9_sweep_preserves_catalog (ownMac : Mac) (ssid : String) (now : Nat)
    (acc : Nat → Bool) (files : List (String × Nat)) (st : SysState)
    (p : PeerInfo) (e : SharedFile)
    (_hp : p ∈ st.peers) (hstale : PEER_TIMEOUT < sub32 now p.lastSeen)
    (he : e ∈ st.remoteFiles) (_horig : e.sourceNode = p.mac) :
    p ∉ ((updateNodeLinking ownMac ssid now acc files st).1).peers ∧
    e ∈ ((updateNodeLinking ownMac ssid now acc files st).1).remoteFiles ∧
    ((updateNodeLinking ownMac ssid now acc files st).1).remoteFiles = st.remoteFiles := by
  refine ⟨?_, ?_, updateNodeLinking_remoteFiles ownMac ssid now acc files st⟩
  · rw [updateNodeLinking_peers]
    intro hmem
    exact absurd (mem_evictStale.mp hmem).2 (not_le.mpr hstale)
  · rw [updateNodeLinking_remoteFiles]
    exact he

/-- Witness for C9: evicting `macA` leaves its catalog entry `recA` in
place. -/
theorem C9_witness :
    (⟨macA, 0, "A"⟩ : PeerInfo) ∈ stSweep.peers ∧
    PEER_TIMEOUT < sub32 20000 0 ∧
    recA ∈ stSweep.remoteFiles ∧
    recA.sourceNode = macA ∧
    (⟨macA, 0, "A"⟩ : PeerInfo) ∉
      ((updateNodeLinking ownMac1 "S" 20000 (fun _ => true) [] stSweep).1).peers ∧
    recA ∈ ((updateNodeLinking ownMac1 "S" 20000 (fun _ => true) [] stSweep).1).remoteFiles := by
  have h := C9_sweep_preserves_catalog ownMac1 "S" 20000 (fun _ => true) [] stSweep
    ⟨macA, 0, "A"⟩ recA (by decide) (by decide) (by decide) (by decide)
  exact ⟨by decide, by decide, by decide, by decide, h.1, h.2.1⟩

/-- Claim C5: in every reachable state the `retryCount` of every
send-status entry is at most `MAX_RETRY` (the hypothesis states that the
node's own MAC string differs from the broadcast address's, which holds
of every real address), and a ticket whose send-status entry has reached
the bound is erased by the next tick's retry loop without any resend
attempt for it. -/
theorem C5_retry_bound (ownMac : Mac) (ssid : String) (evs : List Event)
    (hmac : getMacString ownMac ≠ getMacString broadcastMac)
    (now : Nat) (acc : Nat → Bool) (ts : List SharedFile) (m : SendStatusMap)
    (i : Nat) (t : SharedFile)
    (ht : MAX_RETRY ≤ (mapGetD m (getMacString t.sourceNode)).retryCount) :
    (∀ kv ∈ (runTrace ownMac ssid evs).sendStatuses, kv.2.retryCount ≤ MAX_RETRY) ∧
    t ∉ (retryPhase now acc ts m i).tickets ∧
    t ∉ (retryPhase now acc ts m i).attempts := by
  obtain ⟨-, hinv⟩ := sysInv_runTrace ownMac ssid hmac evs
  refine ⟨fun kv hkv => ?_, retryPhase_drops_bounded now acc ts m i ht⟩
  rw [(hinv kv hkv).2]
  exact Nat.zero_le MAX_RETRY

/-- A ticket for C5's and C6's witnesses: a failed local advertisement of
`b.txt` by the node `ownMac1`. -/
def tkB : SharedFile := ⟨"b.txt", 7, ownMac1, "S"⟩

/-- A status map whose single entry has exhausted its retry budget. -/
def msExhausted : SendStatusMap := [(getMacString ownMac1, ⟨false, 3, 0⟩)]

/-- Witness for C5: a concrete two-event trace, and a concrete ticket at
the bound that the retry loop drops without attempting. -/
theorem C5_witness :
    getMacString ownMac1 ≠ getMacString broadcastMac ∧
    MAX_RETRY ≤ (mapGetD msExhausted (getMacString tkB.sourceNode)).retryCount ∧
    ((∀ kv ∈ (runTrace ownMac1 "S"
        [Event.tick 2000 (fun _ => false) [("b.txt", 7)], Event.sendOutcome 1]).sendStatuses,
        kv.2.retryCount ≤ MAX_RETRY) ∧
      tkB ∉ (retryPhase 200 (fun _ => true) [tkB] msExhausted 0).tickets ∧
      tkB ∉ (retryPhase 200 (fun _ => true) [tkB] msExhausted 0).attempts) :=
  ⟨by decide, by decide,
   C5_retry_bound ownMac1 "S"
     [Event.tick 2000 (fun _ => false) [("b.txt", 7)], Event.sendOutcome 1]
     (by decide) 200 (fun _ => true) [tkB] msExhausted 0 tkB (by decide)⟩

/-- A status map with a fresh (zero) entry for `ownMac1`. -/
def msFresh : SendStatusMap := [(getMacString ownMac1, ⟨false, 0, 0⟩)]

/-- The retry loop run on one eligible ticket whose send is rejected. -/
def outRejected : PhaseOut := retryPhase 200 (fun _ => false) [tkB] msFresh 0

/-- Counterexample to claim C6 as stated.  The ticket `tkB` is eligible
(`retryCount` 0 < `MAX_RETRY`, `200 - 0 >= RETRY_SPACING`) and its resend
is attempted and rejected, yet the tick leaves its `retryCount` at 0 (not
incremented to 1) and its `lastAttempt` at 0 (not updated to 200): on a
send failure the source keeps the ticket and changes nothing — the only
`retryCount` increment lives in the asynchronous send callback, which
looks up the broadcast destination's MAC string and never matches. -/
theorem C6_counterexample :
    (mapGetD msFresh (getMacString tkB.sourceNode)).retryCount < MAX_RETRY ∧
    RETRY_SPACING ≤ sub32 200 (mapGetD msFresh (getMacString tkB.sourceNode)).lastTry ∧
    outRejected.attempts = [tkB] ∧
    outRejected.tickets = [tkB] ∧
    (mapGetD outRejected.statuses (getMacString tkB.sourceNode)).retryCount = 0 ∧
    (mapGetD outRejected.statuses (getMacString tkB.sourceNode)).lastTry = 0 ∧
    ¬ (mapGetD outRejected.statuses (getMacString tkB.sourceNode)).retryCount = 1 ∧
    ¬ (mapGetD outRejected.statuses (getMacString tkB.sourceNode)).lastTry = 200 := by
  decide

/-- Claim C6 (amended): on each tick the retry loop runs over the whole
queue before the fresh-broadcast loop; a ticket whose status has
`retryCount < MAX_RETRY` and `now - lastAttempt >= RETRY_SPACING` gets a
resend attempt; when the transport accepts it the ticket is removed and
the status's `lastTry` is set to now; when the transport rejects it the
ticket is kept and its status entry is left completely unchanged (no
`retryCount` increment, no `lastTry` update — those were the claim's
error). -/
theorem C6_retry_phase_semantics (now : Nat) (acc : Nat → Bool) (t : SharedFile)
    (m : SendStatusMap) (i : Nat) (ownMac : Mac) (ssid : String)
    (files : List (String × Nat)) (q : List SharedFile)
    (h1 : (mapGetD m (getMacString t.sourceNode)).retryCount < MAX_RETRY)
    (h2 : RETRY_SPACING ≤ sub32 now (mapGetD m (getMacString t.sourceNode)).lastTry) :
    (broadcastFiles ownMac ssid now acc files q m).retryAttempts =
        (retryPhase now acc q m 0).attempts ∧
    (broadcastFiles ownMac ssid now acc files q m).freshAttempts =
        (freshPhase ownMac ssid now acc files (retryPhase now acc q m 0).tickets
          (retryPhase now acc q m 0).statuses (retryPhase now acc q m 0).counter).attempts ∧
    (retryPhase now acc [t] m i).attempts = [t] ∧
    (acc i = true →
      (retryPhase now acc [t] m i).tickets = [] ∧
      (mapGetD (retryPhase now acc [t] m i).statuses (getMacString t.sourceNode)).lastTry = now) ∧
    (acc i = false →
      (retryPhase now acc [t] m i).tickets = [t] ∧
      mapGetD (retryPhase now acc [t] m i).statuses (getMacString t.sourceNode) =
        mapGetD m (getMacString t.sourceNode)) := by
  have hens : mapGetD (mapEnsure m (getMacString t.sourceNode)) (getMacString t.sourceNode) =
      mapGetD m (getMacString t.sourceNode) :=
    mapGetD_mapEnsure m (getMacString t.sourceNode) (getMacString t.sourceNode)
  refine ⟨rfl, rfl, ?_, ?_, ?_⟩
  · simp only [retryPhase, hens, if_pos h1, if_pos h2]
    split
    · rfl
    · rfl
  · intro h3
    simp [retryPhase, hens, if_pos h1, if_pos h2, if_pos h3, mapGetD_mapSet_self]
  · intro h3
    have h3' : ¬ (acc i = true) := by simp [h3]
    simp [retryPhase, hens, if_pos h1, if_pos h2, if_neg h3']

/-- Witness for C6 (amended): the concrete eligible ticket `tkB`, once
with the transport rejecting (ticket kept, status untouched) and once
with it accepting (ticket removed, `lastTry` updated). -/
theorem C6_witness :
    (mapGetD msFresh (getMacString tkB.sourceNode)).retryCount < MAX_RETRY ∧
    RETRY_SPACING ≤ sub32 200 (mapGetD msFresh (getMacString tkB.sourceNode)).lastTry ∧
    (retryPhase 200 (fun _ => false) [tkB] msFresh 0).tickets = [tkB] ∧
    mapGetD (retryPhase 200 (fun _ => false) [tkB] msFresh 0).statuses
        (getMacString tkB.sourceNode) = mapGetD msFresh (getMacString tkB.sourceNode) ∧
    (retryPhase 200 (fun _ => true) [tkB] msFresh 0).tickets = [] ∧
    (mapGetD (retryPhase 200 (fun _ => true) [tkB] msFresh 0).statuses
        (getMacString tkB.sourceNode)).lastTry = 200 := by
  have hrej := C6_retry_phase_semantics 200 (fun _ => false) tkB msFresh 0 ownMac1 "S" [] []
    (by decide) (by decide)
  have hacc := C6_retry_phase_semantics 200 (fun _ => true) tkB msFresh 0 ownMac1 "S" [] []
    (by decide) (by decide)
  obtain ⟨-, -, -, -, hr⟩ := hrej
  obtain ⟨-, -, -, ha, -⟩ := hacc
  obtain ⟨hr1, hr2⟩ := hr rfl
  obtain ⟨ha1, ha2⟩ := ha rfl
  exact ⟨by decide, by decide, hr1, hr2, ha1, ha2⟩

/-- The 21 distinct sender addresses of C8's failing input, one datagram
each. -/
def evsOverflow : List Event :=
  (List.range (MAX_PEERS + 1)).map fun i =>
    Event.recv ⟨i, 0, 0, 0, 0, 0⟩ ⟨RECORD_SIZE, ⟨"f.txt", 1, ⟨i, 0, 0, 0, 0, 0⟩, "N"⟩⟩ 0

/-- Claim C8 names a bug in the code: the receive merger appends every
previously unseen sender unconditionally (`peers.push_back`, no check
against `MAX_PEERS`, which the source declares and never uses), so after
21 well-formed datagrams from 21 distinct addresses the registry holds
`MAX_PEERS + 1 = 21 > 20` peers — there is no bounded-admission policy. -/
theorem C8_peer_bound_not_enforced :
    (runTrace ownMac1 "S" evsOverflow).peers.length = MAX_PEERS + 1 ∧
    MAX_PEERS < (runTrace ownMac1 "S" evsOverflow).peers.length := by
  decide

/-- Claim C10: on every reachable state, every queued retry ticket's
embedded origin is this node's own address, so every send-status key the
scheduler reads or writes during a tick — in the retry loop and in the
fresh-broadcast loop — is the single MAC string of this node's own
address: all tickets share one send-status record. -/
theorem C10_single_send_status_key (ownMac : Mac) (ssid : String) (evs : List Event)
    (now : Nat) (acc : Nat → Bool) (files : List (String × Nat)) :
    (∀ t ∈ (runTrace ownMac ssid evs).failedTransmissions,
      t.sourceNode = ownMac ∧ getMacString t.sourceNode = getMacString ownMac) ∧
    (∀ k ∈ (updateNodeLinking ownMac ssid now acc files (runTrace ownMac ssid evs)).2.keys,
      k = getMacString ownMac) := by
  have hq := queueInv_runTrace ownMac ssid evs
  constructor
  · intro t ht
    exact ⟨hq t ht, by rw [hq t ht]⟩
  · intro k hk
    revert hk
    simp only [updateNodeLinking]
    split
    · simp only [broadcastFiles]
      intro hk
      rcases List.mem_append.mp hk with h' | h'
      · exact retryPhase_keys now acc (getMacString ownMac) _ _ _
          (fun t ht => by rw [hq t ht]) k h'
      · exact freshPhase_keys ownMac ssid now acc _ _ _ _ k h'
    · intro hk
      simp at hk
